import Mathlib

/-!
Shallow embedding of the Hermes package-station core (src/hermes/app.py):
remote snapshot selection, change detection, CSV directory parsing,
directory cache rebuilding, fuzzy identity resolution, the intake ledger
and ledger search.  Python strings are modelled as Lean `String` with
hand-rolled, kernel-reducible helpers mirroring the Python operations
(`str.strip`, lexicographic comparison, `str.split`); timestamps are
modelled as `Nat` (for WebDAV modification times) or opaque `String`
values (for ISO timestamps that the code only stores and compares as
text); the rapidfuzz similarity scorer is an external black box and is
modelled as an explicit `Scorer` parameter returning a `Nat` in 0..100.
Network effects (PROPFIND listing, GET downloads) are passed in as
explicit data: the listing as a `List RemoteFileInfo`, downloads as an
oracle `String → Option (String × String)` mapping a URL to the decoded
text and the SHA-256 digest of the bytes (`none` models a failed fetch).
-/

/-- Python `str` truthiness-driven whitespace test used by `str.strip()`
(restricted to the ASCII whitespace actually occurring in this domain). -/
def wsChar (c : Char) : Bool := c = ' ' || c = '\t' || c = '\n' || c = '\r'

/-- Python `s.strip()`: remove leading and trailing whitespace. -/
def pyStrip (s : String) : String :=
  String.mk (((s.data.dropWhile wsChar).reverse.dropWhile wsChar).reverse)

/-- Python `s.strip(", ")` as used in `parse_csv`: remove leading and
trailing characters drawn from the set of comma and space. -/
def commaSpace (c : Char) : Bool := c = ',' || c = ' '

def stripCommaSpace (s : String) : String :=
  String.mk (((s.data.dropWhile commaSpace).reverse.dropWhile commaSpace).reverse)

/-- Lexicographic strict comparison of character lists by code point,
mirroring Python string `<`. -/
def strLtB : List Char → List Char → Bool
  | [], [] => false
  | [], _ :: _ => true
  | _ :: _, [] => false
  | x :: xs, y :: ys =>
    if x.toNat < y.toNat then true
    else if y.toNat < x.toNat then false
    else strLtB xs ys

/-- Python string `a < b`. -/
def pyStrLt (a b : String) : Bool := strLtB a.data b.data

/-- Split a character list on a separator character, mirroring Python
`str.split(sep)` for a single-character separator. -/
def splitOnChar (sep : Char) (cs : List Char) : List (List Char) :=
  cs.foldr (fun c acc =>
    match acc with
    | [] => if c = sep then [[], []] else [[c]]
    | g :: gs => if c = sep then [] :: g :: gs else (c :: g) :: gs) [[]]

def pySplit (sep : Char) (s : String) : List String :=
  (splitOnChar sep s.data).map String.mk

/-- Python `os.path.basename` on a POSIX path: the part after the last
slash. -/
def basename (s : String) : String := ((pySplit '/' s).getLast?).getD ""

/-- Python `dict.get`: first binding of a key in an association list
(association lists built by `dictInsert` hold each key at most once). -/
def dictGet {α : Type} (d : List (String × α)) (k : String) : Option α :=
  (d.find? (fun p => p.1 = k)).map (·.2)

/-- Python `d[k] = v`: overwrite in place if the key is present (keeping
its position, as CPython dicts do), else append. -/
def dictInsert {α : Type} (d : List (String × α)) (k : String) (v : α) :
    List (String × α) :=
  if d.any (fun p => p.1 = k) then
    d.map (fun p => if p.1 = k then (k, v) else p)
  else d ++ [(k, v)]

/-- Stable insertion used to model Python's stable `sorted`: `x` moves
past `y` only when `gt y x` holds strictly, so equal elements keep their
original relative order. -/
def insertBy {α : Type} (gt : α → α → Bool) (x : α) : List α → List α
  | [] => [x]
  | y :: ys => if gt y x then y :: insertBy gt x ys else x :: y :: ys

/-- Stable sort placing `gt`-greater elements first (Python
`sorted(..., reverse=True)` when `gt` compares scores). -/
def sortByDesc {α : Type} (gt : α → α → Bool) (l : List α) : List α :=
  l.foldr (insertBy gt) []

/-- Python `sorted` on strings: ascending code-point order. -/
def sortStringsAsc (l : List String) : List String :=
  sortByDesc (fun a b => pyStrLt a b) l

/-- Similarity scorer (rapidfuzz `fuzz.WRatio`): external black box per
the design notes, a function from query and choice to a 0..100 score. -/
abbrev Scorer := String → String → Nat

/-- Model of `rapidfuzz.process.extract(query, choices, score_cutoff,
limit)` over a list of choices: score every choice, keep scores at or
above the cutoff, order by score descending (stable) and take the first
`limit`.  Each result is `(choice, score)`. -/
def extractList (scorer : Scorer) (query : String) (choices : List String)
    (cutoff limit : Nat) : List (String × Nat) :=
  ((sortByDesc (fun a b => b.2 < a.2)
    ((choices.map (fun c => (c, scorer query c))).filter
      (fun p => cutoff ≤ p.2)))).take limit

/-- Model of `rapidfuzz.process.extract` over a mapping (Python dict):
the result triples are `(choiceValue, score, key)` — value first, key
last, exactly as rapidfuzz returns them for a mapping. -/
def extractDict (scorer : Scorer) (query : String)
    (dataset : List (String × String)) (cutoff limit : Nat) :
    List (String × Nat × String) :=
  ((sortByDesc (fun a b => b.2.1 < a.2.1)
    ((dataset.map (fun p => (p.2, scorer query p.2, p.1))).filter
      (fun t => cutoff ≤ t.2.1)))).take limit

/-- RemoteFileInfo from app.py: one WebDAV listing entry; `modified` is
the parsed `getlastmodified` timestamp (modelled as `Nat`, absent when
the header was missing or unparseable), `etag` the quote-stripped
`getetag`. -/
structure RemoteFileInfo where
  href : String
  url : String
  etag : Option String
  modified : Option Nat
  name : String
deriving Repr, DecidableEq

/-- The process-wide `remote_sync_state` dict of app.py. -/
structure SyncState where
  href : Option String
  etag : Option String
  hash : Option String
  modified : Option String
deriving Repr, DecidableEq

/-- DirectoryEntry dataclass of app.py. -/
structure DirectoryEntry where
  sendungsnr : String
  name : String
deriving Repr, DecidableEq

/-- One row of the sqlite `directory` table (`name` is a nullable
column). -/
structure DirRow where
  sendungsnr : String
  name : Option String
  updatedAt : String
deriving Repr, DecidableEq

/-- One row of the sqlite `packages` table. -/
structure PackageRow where
  sendungsnr : String
  zone : Option String
  receivedAt : String
  name : Option String
deriving Repr, DecidableEq

/-- Configuration read from the environment in app.py:
`CSV_STATIC_FILE` (`none` models unset or empty, both falsy in Python)
and `CSV_COLLECTION_URL`. -/
structure Config where
  staticFile : Option String
  collectionUrl : String
deriving Repr, DecidableEq

/-- DEFAULT_MODIFIED of app.py (`datetime.min`): the minimum timestamp,
0 in the `Nat` model. -/
def DEFAULT_MODIFIED : Nat := 0

/-- Sort key of `choose_remote_file`: the Python tuple
`(item.modified or DEFAULT_MODIFIED, item.name)`. -/
def fileKey (f : RemoteFileInfo) : Nat × String := (f.modified.getD DEFAULT_MODIFIED, f.name)

/-- Python tuple `<` on `(timestamp, name)` pairs. -/
def keyLtB (a b : Nat × String) : Bool :=
  decide (a.1 < b.1) || (decide (a.1 = b.1) && pyStrLt a.2 b.2)

/-- One comparison step of Python `max(files, key=...)`: the current
maximum is replaced only on a strictly greater key, so the first
maximum wins ties. -/
def selStep (best y : RemoteFileInfo) : RemoteFileInfo :=
  if keyLtB (fileKey best) (fileKey y) then y else best

/-- Python `max(files, key=...)` as a left scan. -/
def pyMax (l : List RemoteFileInfo) : Option RemoteFileInfo :=
  match l with
  | [] => none
  | x :: xs => some (xs.foldl selStep x)

/-- Weak (reflexive) form of the tuple order used to state what the
selector maximises. -/
def keyLe (a b : Nat × String) : Prop := keyLtB a b = true ∨ a = b

/-- choose_remote_file of app.py. -/
def chooseRemoteFile (staticFile : Option String) (files : List RemoteFileInfo) :
    Option RemoteFileInfo :=
  if files.isEmpty then none
  else
    match staticFile with
    | some sf =>
      match files.find? (fun f => f.name = basename sf) with
      | some f => some f
      | none => pyMax files
    | none => pyMax files

/-- Python truthiness of an optional string (`None` and `""` are
falsy). -/
def truthyOpt : Option String → Bool
  | none => false
  | some s => s ≠ ""

/-- Python `s.lower().endswith(".csv")` restricted to what the fetch
needs: a case-insensitive suffix test, modelled on lowercased ASCII. -/
def lowerChar (c : Char) : Char :=
  if 'A' ≤ c ∧ c ≤ 'Z' then Char.ofNat (c.val.toNat + 32) else c

def endsWithCsv (s : String) : Bool :=
  let l := (s.data.map lowerChar).reverse
  match l with
  | 'v' :: 's' :: 'c' :: '.' :: _ => true
  | _ => false

/-- fetch_remote_csv of app.py as a pure function: the listing result
and the download oracle are inputs, the new `remote_sync_state` and the
optional text are the outputs.  `download url = some (text, digest)`
models a 200 response decoding to `text` whose bytes hash to `digest`;
`none` models any download failure. -/
def fetchRemoteCsv (cfg : Config) (download : String → Option (String × String))
    (files : List RemoteFileInfo) (st : SyncState) : SyncState × Option String :=
  if files.isEmpty then
    let directUrl : Option String :=
      match cfg.staticFile with
      | some sf => some sf
      | none =>
        if cfg.collectionUrl ≠ "" ∧ endsWithCsv cfg.collectionUrl then
          some cfg.collectionUrl
        else none
    match directUrl with
    | none => (st, none)
    | some url =>
      match download url with
      | none => (st, none)
      | some (text, digest) =>
        if st.hash = some digest then (st, none)
        else ({ href := some url, etag := none, hash := some digest,
                modified := none }, some text)
  else
    match chooseRemoteFile cfg.staticFile files with
    | none => (st, none)
    | some target =>
      if st.href = some target.href ∧ truthyOpt st.etag ∧ truthyOpt target.etag ∧
          st.etag = target.etag then (st, none)
      else
        match download target.url with
        | none => (st, none)
        | some (text, digest) =>
          if st.href = some target.href ∧ st.hash = some digest then (st, none)
          else ({ href := some target.href, etag := target.etag,
                  hash := some digest,
                  modified := target.modified.map (fun n => toString n) },
                some text)

/-- One CSV row as `csv.DictReader` presents it: a partial map from
column name to cell value. -/
abbrev Row : Type := List (String × String)

def getCol (r : Row) (c : String) : Option String :=
  ((r : List (String × String)).find? (fun p => p.1 = c)).map (·.2)

/-- Python `row.get(c1) or row.get(c2) or ... or ""`: the first
non-empty (truthy) value among the probed columns, else `""`. -/
def orGet (r : Row) : List String → String
  | [] => ""
  | c :: rest =>
    match getCol r c with
    | some v => if v = "" then orGet r rest else v
    | none => orGet r rest

/-- The joined fallback name of parse_csv:
`", ".join(part for part in [lastname, firstname] if part).strip(", ")`. -/
def joinName (lastname firstname : String) : String :=
  stripCommaSpace
    (String.intercalate ", " (([lastname, firstname]).filter (fun p => p ≠ "")))

/-- Body of the parse_csv row loop of app.py. -/
def parseRow (r : Row) : Option (String × String) :=
  let sendungsnr :=
    orGet r ["sendungsnr", "Sendungsnummer", "sendungsnummer", "Sendungsnr"]
  if sendungsnr = "" then none
  else
    let name := pyStrip (orGet r ["name", "Name", "Nachname", "Empfänger"])
    let firstname := pyStrip (orGet r ["Vorname", "vorname", "firstname"])
    let lastname := pyStrip (orGet r ["Nachname", "nachname", "lastname"])
    let name := if name = "" then joinName lastname firstname else name
    some (pyStrip sendungsnr, name)

/-- parse_csv of app.py over DictReader rows. -/
def parseCsv (rows : List Row) : List (String × String) := rows.filterMap parseRow

/-- Simplified `csv.DictReader` over raw text: first line is the
header, later non-blank lines are zipped with it (quoting is not
modelled; all content in scope is unquoted comma-separated text). -/
def csvRows (content : String) : List Row :=
  match (pySplit '\n' content).filter (fun l => l ≠ "") with
  | [] => []
  | header :: rest =>
    let cols := pySplit ',' header
    rest.map (fun line => cols.zip (pySplit ',' line))

def parseCsvText (content : String) : List (String × String) :=
  parseCsv (csvRows content)

/-- rebuild_directory_cache of app.py: from `SELECT sendungsnr,
COALESCE(name, '') AS name FROM directory`, build the dict comprehension
keyed by `sendungsnr` (rows with a falsy, i.e. empty, code are skipped;
the entry name is the stripped stored value) and take the key list as
the fuzzy candidate pool. -/
def buildCache (rows : List DirRow) : List (String × DirectoryEntry) :=
  rows.foldl (fun acc row =>
    if row.sendungsnr = "" then acc
    else dictInsert acc row.sendungsnr
      ⟨row.sendungsnr, pyStrip (row.name.getD "")⟩) []

def rebuildDirectoryCache (rows : List DirRow) :
    List (String × DirectoryEntry) × List String :=
  let cache := buildCache rows
  (cache, cache.map (·.1))

/-- The mutable module-level state of app.py that the sync and intake
paths share: the two sqlite tables, the in-memory directory cache and
candidate list, and the remote sync state. -/
structure AppState where
  packages : List PackageRow
  directory : List DirRow
  cache : List (String × DirectoryEntry)
  choices : List String
  syncState : SyncState
deriving Repr, DecidableEq

/-- sync_directory of app.py: `DELETE FROM directory`, insert all
parsed entries with the current timestamp, then rebuild the cache. -/
def syncDirectory (entries : List (String × String)) (ts : String)
    (st : AppState) : AppState :=
  let dir := entries.map (fun e => DirRow.mk e.1 (some e.2) ts)
  let rc := rebuildDirectoryCache dir
  { st with directory := dir, cache := rc.1, choices := rc.2 }

/-- perform_sync of app.py: fetch (which itself updates the sync
state), bail out on a falsy (absent or empty) text, parse, bail out on
zero entries, else replace the directory. -/
def performSync (cfg : Config) (download : String → Option (String × String))
    (files : List RemoteFileInfo) (ts : String) (st : AppState) : AppState :=
  let fr := fetchRemoteCsv cfg download files st.syncState
  let st1 : AppState := { st with syncState := fr.1 }
  match fr.2 with
  | none => st1
  | some content =>
    if content = "" then st1
    else
      let entries := parseCsvText content
      if entries.isEmpty then st1
      else syncDirectory entries ts st1

/-- HermesApp.match_directory of app.py: exact cache hit first, then
rapidfuzz extraction over the candidate pool with cutoff 85 and limit
6; a best score of at least 90 returns the best candidate's name, a
lower best score returns the composite of the in-band names. -/
def matchDirectory (scorer : Scorer) (cache : List (String × DirectoryEntry))
    (choices : List String) (sendungsnr : String) :
    Option String × List String × Option Nat :=
  if sendungsnr = "" then (none, [], none)
  else
    let key := pyStrip sendungsnr
    match dictGet cache key with
    | some entry =>
      (if entry.name = "" then none else some entry.name, [key], some 100)
    | none =>
      if choices.isEmpty then (none, [], none)
      else
        match extractList scorer key choices 85 6 with
        | [] => (none, [], none)
        | (bestKey, bestScore) :: rest =>
          let found := (bestKey, bestScore) :: rest
          let matchedKeys := found.map (·.1)
          if 90 ≤ bestScore then
            ((dictGet cache bestKey).map (·.name), matchedKeys, some bestScore)
          else
            let bandNames := sortStringsAsc
              ((found.filterMap (fun p =>
                if 85 ≤ p.2 ∧ p.2 ≤ 95 then
                  match dictGet cache p.1 with
                  | some e => if e.name = "" then none else some e.name
                  | none => none
                else none)).eraseDups)
            let combined :=
              if bandNames.isEmpty then none
              else some (String.intercalate " / " bandNames)
            (combined, matchedKeys, some bestScore)

/-- Composite ambiguous name as the specification words it: the
distinct non-empty names of all candidates whose score lies in the band
85..95, sorted lexicographically and joined with " / "; null when no
candidate contributes a name. -/
def ambiguousComposite (cache : List (String × DirectoryEntry))
    (cands : List (String × Nat)) : Option String :=
  let inBand := cands.filter (fun p => decide (85 ≤ p.2) && decide (p.2 ≤ 95))
  let names := inBand.filterMap (fun p =>
    (dictGet cache p.1).bind (fun e => if e.name = "" then none else some e.name))
  let distinctSorted := sortStringsAsc names.eraseDups
  if distinctSorted.isEmpty then none
  else some (String.intercalate " / " distinctSorted)

/-- HermesApp.insert_package of app.py: sqlite upsert keyed by the
`sendungsnr` primary key — the conflicting row is updated in place,
otherwise a new row is appended. -/
def insertPackage (ts code zone : String) (name : Option String)
    (pkgs : List PackageRow) : List PackageRow :=
  if pkgs.any (fun r => r.sendungsnr = code) then
    pkgs.map (fun r =>
      if r.sendungsnr = code then ⟨code, some zone, ts, name⟩ else r)
  else pkgs ++ [⟨code, some zone, ts, name⟩]

/-- One row as HermesApp.fetch_all_packages returns it (nullable
columns coalesced to the empty string). -/
structure SearchRow where
  sendungsnr : String
  name : String
  zone : String
  receivedAt : String
deriving Repr, DecidableEq

/-- fetch_all_packages of app.py: coalesce, order by `received_at`
descending (ISO timestamps compare as text) and cap at 500. -/
def fetchAllPackages (pkgs : List PackageRow) : List SearchRow :=
  ((sortByDesc (fun a b => pyStrLt a.receivedAt b.receivedAt) pkgs).take 500).map
    (fun r => ⟨r.sendungsnr, r.name.getD "", r.zone.getD "", r.receivedAt⟩)

/-- Composite searchable string of run_search:
`" ".join(part for part in (sendungsnr, name, zone) if part)`. -/
def compositeOf (r : SearchRow) : String :=
  String.intercalate " "
    (([r.sendungsnr, r.name, r.zone]).filter (fun p => p ≠ ""))

/-- HermesApp.run_search of app.py over an already-fetched row list:
empty (stripped) term displays the rows as they are; otherwise build
the `choices` dict (code to row) and the `dataset` dict (code to
composite string), extract with cutoff 70 and limit 200, sort by score
descending, then walk the triples unpacking them as
`key, score, _value` — i.e. using the rapidfuzz choice VALUE in the
position the loop treats as the key — deduplicate on that value and
look it up in `choices`.  The result pairs each surviving row with its
score (`none` on the pass-through path). -/
def runSearch (scorer : Scorer) (termRaw : String) (rows : List SearchRow) :
    List (SearchRow × Option Nat) :=
  let term := pyStrip termRaw
  if rows.isEmpty then []
  else if term = "" then rows.map (fun r => (r, none))
  else
    let choices := rows.foldl (fun d r => dictInsert d r.sendungsnr r) []
    let dataset := rows.foldl (fun d r => dictInsert d r.sendungsnr (compositeOf r)) []
    let found := extractDict scorer term dataset 70 200
    if found.isEmpty then []
    else
      let sortedMatches := sortByDesc (fun a b => b.2.1 < a.2.1) found
      (sortedMatches.foldl
        (fun (acc : List (SearchRow × Option Nat) × List String) t =>
          let key := t.1
          let score := t.2.1
          if acc.2.contains key then acc
          else
            match dictGet choices key with
            | none => acc
            | some row => (acc.1 ++ [(row, some score)], acc.2 ++ [key]))
        ([], [])).1

/-- Ledger search as the specification words it: score each row's
composite string against the term, discard scores below 70, sort
descending by score with ties in original recency order, deduplicate by
code keeping the first (highest-scoring) occurrence, cap at 200. -/
def runSearchSpec (scorer : Scorer) (term : String) (rows : List SearchRow) :
    List (SearchRow × Nat) :=
  let scored := rows.map (fun r => (r, scorer term (compositeOf r)))
  let kept := scored.filter (fun p => decide (70 ≤ p.2))
  let ranked := sortByDesc (fun a b => b.2 < a.2) kept
  ((ranked.foldl
    (fun (acc : List (SearchRow × Nat) × List String) p =>
      if acc.2.contains p.1.sendungsnr then acc
      else (acc.1 ++ [p], acc.2 ++ [p.1.sendungsnr]))
    ([], [])).1).take 200

/-- Concrete stand-in scorer for evaluated counterexamples: 100 on
equality, 90 when the query is one of the space-separated words of the
choice, 0 otherwise. -/
def demoScorer : Scorer := fun query choice =>
  if choice = query then 100
  else if (pySplit ' ' choice).contains query then 90
  else 0

/-- Concrete inputs used by the evaluated counterexamples and
witnesses below: a single remote CSV file, a collection URL that is not
itself a CSV, and a download oracle serving a header-only CSV body. -/
def c1file : RemoteFileInfo := ⟨"/f.csv", "https://x/f.csv", some "e1", none, "f.csv"⟩

def c1cfg : Config := ⟨none, "https://x/"⟩

def c1dl : String → Option (String × String) :=
  fun u => if u = "https://x/f.csv" then some ("Sendungsnummer\n", "d1") else none

def c1app : AppState := ⟨[], [], [], [], ⟨none, none, none, none⟩⟩

/-- Sync state of a cycle that has already recorded `c1file` with the
same content digest but an older change tag. -/
def c4state : SyncState := ⟨some "/f.csv", some "eOLD", some "d1", none⟩

def c4app : AppState := ⟨[⟨"P1", some "A", "t", none⟩], [], [], [], c4state⟩

/-- The parser example row of the specification: Sendungsnummer=123,
Vorname=Jane, Nachname=Doe, no other columns. -/
def c2row : Row := [("Sendungsnummer", "123"), ("Vorname", "Jane"), ("Nachname", "Doe")]

/-- Directory cache with one entry, for the exact-hit witness. -/
def c5cache : List (String × DirectoryEntry) := [("H1", ⟨"H1", "Maria Schmidt"⟩)]

/-- Scorer and cache driving the resolver into the ambiguous band:
both candidates clear the cutoff 85 but stay below 90. -/
def scorer87 : Scorer := fun _ c => if c = "H1" then 87 else if c = "H2" then 86 else 0

def c3cache : List (String × DirectoryEntry) :=
  [("H1", ⟨"H1", "Zed"⟩), ("H2", ⟨"H2", "Anna"⟩)]

/-- Selector example descriptors: equal `modifiedAt`, names a.csv and
b.csv. -/
def selA : RemoteFileInfo := ⟨"hA", "uA", none, some 5, "a.csv"⟩

def selB : RemoteFileInfo := ⟨"hB", "uB", none, some 5, "b.csv"⟩

/-- Ledger row whose resolved name and zone are non-empty, so its
searchable composite string differs from its code. -/
def c8row : SearchRow := ⟨"A1", "Maria", "Z1", "2024-01-01T10:00:00"⟩

/-- Directory table rows for the cache-invariant witness: one normal
row with an unstripped stored name, one row with an empty code. -/
def c10rows : List DirRow := [⟨"X", some " y ", "t"⟩, ⟨"", some "z", "t"⟩]

/-- Ledger for the upsert witness. -/
def c7pkgs : List PackageRow := [⟨"B2", some "Z9", "t0", none⟩]

/-! Helper lemmas about the lexicographic comparisons and the scan of
`pyMax`. -/

theorem strLtB_trans : ∀ {a b c : List Char},
    strLtB a b = true → strLtB b c = true → strLtB a c = true := by
  intro a
  induction a with
  | nil =>
    intro b c hab hbc
    cases b with
    | nil => simp [strLtB] at hab
    | cons y ys =>
      cases c with
      | nil => simp [strLtB] at hbc
      | cons z zs => simp [strLtB]
  | cons x xs ih =>
    intro b c hab hbc
    cases b with
    | nil => simp [strLtB] at hab
    | cons y ys =>
      cases c with
      | nil => simp [strLtB] at hbc
      | cons z zs =>
        simp only [strLtB] at hab hbc ⊢
        by_cases hxy : x.toNat < y.toNat
        · by_cases hyz : y.toNat < z.toNat
          · simp [show x.toNat < z.toNat by omega]
          · by_cases hzy : z.toNat < y.toNat
            · simp [hyz, hzy] at hbc
            · simp [show x.toNat < z.toNat by omega]
        · by_cases hyx : y.toNat < x.toNat
          · simp [hxy, hyx] at hab
          · simp only [if_neg hxy, if_neg hyx] at hab
            by_cases hyz : y.toNat < z.toNat
            · simp [show x.toNat < z.toNat by omega]
            · by_cases hzy : z.toNat < y.toNat
              · simp [hyz, hzy] at hbc
              · simp only [if_neg hyz, if_neg hzy] at hbc
                have h1 : ¬ x.toNat < z.toNat := by omega
                have h2 : ¬ z.toNat < x.toNat := by omega
                simp only [if_neg h1, if_neg h2]
                exact ih hab hbc

theorem strLtB_both_false : ∀ {a b : List Char},
    strLtB a b = false → strLtB b a = false → a = b := by
  intro a
  induction a with
  | nil =>
    intro b hab _
    cases b with
    | nil => rfl
    | cons y ys => simp [strLtB] at hab
  | cons x xs ih =>
    intro b hab hba
    cases b with
    | nil => simp [strLtB] at hba
    | cons y ys =>
      simp only [strLtB] at hab hba
      by_cases hxy : x.toNat < y.toNat
      · simp [hxy] at hab
      · by_cases hyx : y.toNat < x.toNat
        · simp [hyx] at hba
        · simp only [if_neg hxy, if_neg hyx] at hab hba
          have hx : x = y := by
            have hval : x.toNat = y.toNat := by omega
            exact Char.eq_of_val_eq (UInt32.ext hval)
          rw [hx, ih hab hba]

theorem keyLtB_trans {a b c : Nat × String} (hab : keyLtB a b = true)
    (hbc : keyLtB b c = true) : keyLtB a c = true := by
  unfold keyLtB pyStrLt at hab hbc ⊢
  simp only [Bool.or_eq_true, Bool.and_eq_true, decide_eq_true_eq] at hab hbc ⊢
  rcases hab with h1 | ⟨h1, h2⟩ <;> rcases hbc with h3 | ⟨h3, h4⟩
  · exact Or.inl (by omega)
  · exact Or.inl (by omega)
  · exact Or.inl (by omega)
  · exact Or.inr ⟨by omega, strLtB_trans h2 h4⟩

theorem keyLtB_both_false {a b : Nat × String} (hab : keyLtB a b = false)
    (hba : keyLtB b a = false) : a = b := by
  unfold keyLtB pyStrLt at hab hba
  simp only [Bool.or_eq_false_iff, Bool.and_eq_false_iff, decide_eq_false_iff_not,
    decide_eq_true_eq] at hab hba
  have h1 : a.1 = b.1 := by omega
  have h2 : a.2.data = b.2.data := by
    rcases hab.2 with h | h
    · exact absurd h1 (by simpa using h)
    · rcases hba.2 with h' | h'
      · exact absurd h1.symm (by simpa using h')
      · exact strLtB_both_false h h'
  have h3 : a.2 = b.2 := by
    calc a.2 = String.mk a.2.data := rfl
    _ = String.mk b.2.data := by rw [h2]
    _ = b.2 := rfl
  exact Prod.ext h1 h3

theorem keyLe_refl (a : Nat × String) : keyLe a a := Or.inr rfl

theorem keyLe_trans {a b c : Nat × String} (hab : keyLe a b) (hbc : keyLe b c) :
    keyLe a c := by
  rcases hab with h1 | rfl
  · rcases hbc with h2 | rfl
    · exact Or.inl (keyLtB_trans h1 h2)
    · exact Or.inl h1
  · exact hbc

theorem keyLe_of_not_lt {a b : Nat × String} (h : keyLtB a b = false) : keyLe b a := by
  by_cases h2 : keyLtB b a = true
  · exact Or.inl h2
  · exact Or.inr (keyLtB_both_false (Bool.eq_false_iff.mpr (by simpa using h2)) h)

theorem selScan_spec : ∀ (xs : List RemoteFileInfo) (x : RemoteFileInfo),
    (xs.foldl selStep x = x ∨ xs.foldl selStep x ∈ xs) ∧
    keyLe (fileKey x) (fileKey (xs.foldl selStep x)) ∧
    ∀ y ∈ xs, keyLe (fileKey y) (fileKey (xs.foldl selStep x)) := by
  intro xs
  induction xs with
  | nil => exact fun x => ⟨Or.inl rfl, keyLe_refl _, by simp⟩
  | cons y ys ih =>
    intro x
    have hfold : (y :: ys).foldl selStep x = ys.foldl selStep (selStep x y) := rfl
    have hstep : keyLe (fileKey x) (fileKey (selStep x y)) := by
      unfold selStep
      by_cases h : keyLtB (fileKey x) (fileKey y) = true
      · simp only [if_pos h]; exact Or.inl h
      · simp only [if_neg h]; exact keyLe_refl _
    have hstepy : keyLe (fileKey y) (fileKey (selStep x y)) := by
      unfold selStep
      by_cases h : keyLtB (fileKey x) (fileKey y) = true
      · simp only [if_pos h]; exact keyLe_refl _
      · simp only [if_neg h]
        exact keyLe_of_not_lt (Bool.eq_false_iff.mpr h)
    obtain ⟨hmem, hacc, hall⟩ := ih (selStep x y)
    refine ⟨?_, ?_, ?_⟩
    · rw [hfold]
      rcases hmem with h | h
      · rw [h]
        unfold selStep
        by_cases hxy : keyLtB (fileKey x) (fileKey y) = true
        · simp [hxy]
        · simp [hxy]
      · exact Or.inr (List.mem_cons_of_mem _ h)
    · rw [hfold]; exact keyLe_trans hstep hacc
    · intro z hz
      rw [hfold]
      rcases List.mem_cons.mp hz with rfl | hz'
      · exact keyLe_trans hstepy hacc
      · exact hall z hz'

/-- C6: the snapshot selector returns none on the empty list; when an
explicit target filename is configured and a descriptor with that
basename is present it returns the first such descriptor; otherwise it
returns a descriptor of the list maximising the pair
`(modifiedAt, name)` under the lexicographic order, where a missing
`modifiedAt` is read as the defined minimum timestamp `DEFAULT_MODIFIED`
(below every timestamp) and equal timestamps are tied-broken by name;
in particular two descriptors with equal `modifiedAt` named a.csv and
b.csv select b.csv. -/
theorem hermes_selector_spec (sf : Option String) (files : List RemoteFileInfo) :
    (files = [] → chooseRemoteFile sf files = none) ∧
    (∀ s f, sf = some s →
      files.find? (fun g => g.name = basename s) = some f →
      chooseRemoteFile sf files = some f) ∧
    (files ≠ [] →
      (sf = none ∨ ∃ s, sf = some s ∧
        files.find? (fun g => g.name = basename s) = none) →
      ∃ g, chooseRemoteFile sf files = some g ∧ g ∈ files ∧
        ∀ f ∈ files, keyLe (fileKey f) (fileKey g)) ∧
    (∀ n : Nat, DEFAULT_MODIFIED ≤ n) ∧
    chooseRemoteFile none [selA, selB] = some selB := by
  refine ⟨?_, ?_, ?_, fun n => Nat.zero_le n, by decide⟩
  · intro h
    subst h
    cases sf <;> rfl
  · intro s f hsf hfind
    subst hsf
    have hne : files.isEmpty = false := by
      cases files with
      | nil => simp at hfind
      | cons a l => rfl
    simp [chooseRemoteFile, hne, hfind]
  · intro hne hcase
    cases files with
    | nil => exact absurd rfl hne
    | cons x xs =>
      obtain ⟨hmem, hacc, hall⟩ := selScan_spec xs x
      refine ⟨xs.foldl selStep x, ?_, ?_, ?_⟩
      · rcases hcase with rfl | ⟨s, rfl, hfind⟩
        · rfl
        · simp [chooseRemoteFile, hfind, pyMax]
      · rcases hmem with h | h
        · rw [h]; exact List.mem_cons_self x xs
        · exact List.mem_cons_of_mem _ h
      · intro f hf
        rcases List.mem_cons.mp hf with rfl | hf'
        · exact hacc
        · exact hall f hf'

/-- Witness for C6: the selector evaluated on the empty list and on the
static-target configuration. -/
theorem hermes_selector_spec_witness :
    chooseRemoteFile none [] = none ∧
    chooseRemoteFile (some "x/b.csv") [selA, selB] = some selB := by
  refine ⟨(hermes_selector_spec none []).1 rfl, ?_⟩
  exact (hermes_selector_spec (some "x/b.csv") [selA, selB]).2.1 "x/b.csv" selB rfl
    (by decide)

theorem mem_insertBy {α : Type} (gt : α → α → Bool) (x a : α) :
    ∀ l : List α, a ∈ insertBy gt x l → a = x ∨ a ∈ l := by
  intro l
  induction l with
  | nil => intro h; simp [insertBy] at h; exact Or.inl h
  | cons y ys ih =>
    intro h
    unfold insertBy at h
    by_cases hc : gt y x = true
    · rw [if_pos hc] at h
      rcases List.mem_cons.mp h with rfl | h'
      · exact Or.inr (List.mem_cons_self _ _)
      · rcases ih h' with h'' | h''
        · exact Or.inl h''
        · exact Or.inr (List.mem_cons_of_mem _ h'')
    · rw [if_neg hc] at h
      rcases List.mem_cons.mp h with rfl | h'
      · exact Or.inl rfl
      · exact Or.inr h'

theorem mem_sortByDesc {α : Type} (gt : α → α → Bool) (a : α) :
    ∀ l : List α, a ∈ sortByDesc gt l → a ∈ l := by
  intro l
  induction l with
  | nil => intro h; simp [sortByDesc] at h
  | cons y ys ih =>
    intro h
    have h' : a ∈ insertBy gt y (sortByDesc gt ys) := h
    rcases mem_insertBy gt y a _ h' with rfl | h''
    · exact List.mem_cons_self _ _
    · exact List.mem_cons_of_mem _ (ih h'')

theorem extractList_mem_cutoff {scorer : Scorer} {query : String}
    {choices : List String} {cutoff limit : Nat} {c : String} {s : Nat}
    (h : (c, s) ∈ extractList scorer query choices cutoff limit) : cutoff ≤ s := by
  unfold extractList at h
  have h1 := List.take_subset _ _ h
  have h2 := mem_sortByDesc _ _ _ h1
  have h3 := List.mem_filter.mp h2
  simpa using h3.2

theorem bandNames_filterMap_eq (cache : List (String × DirectoryEntry)) :
    ∀ l : List (String × Nat),
    l.filterMap (fun p =>
      if 85 ≤ p.2 ∧ p.2 ≤ 95 then
        match dictGet cache p.1 with
        | some e => if e.name = "" then none else some e.name
        | none => none
      else none) =
    (l.filter (fun p => decide (85 ≤ p.2) && decide (p.2 ≤ 95))).filterMap
      (fun p => (dictGet cache p.1).bind
        (fun e => if e.name = "" then none else some e.name)) := by
  intro l
  induction l with
  | nil => rfl
  | cons p t ih =>
    by_cases hb : 85 ≤ p.2 ∧ p.2 ≤ 95
    · have hbd : (decide (85 ≤ p.2) && decide (p.2 ≤ 95)) = true := by
        simp [hb.1, hb.2]
      cases hd : dictGet cache p.1 with
      | none => simp [List.filterMap_cons, List.filter_cons, hbd, if_pos hb, hd, ih]
      | some e =>
        by_cases he : e.name = ""
        · simp [List.filterMap_cons, List.filter_cons, hbd, if_pos hb, hd, he, ih]
        · simp [List.filterMap_cons, List.filter_cons, hbd, if_pos hb, hd, he, ih]
    · have hbd : (decide (85 ≤ p.2) && decide (p.2 ≤ 95)) = false := by
        rcases not_and_or.mp hb with h | h <;> simp [h]
      simp [List.filterMap_cons, List.filter_cons, hbd, if_neg hb, ih]

/-- C5: a code that is verbatim a cache key resolves exactly — name
from the cache (null when the cached name is empty), matchedCodes the
code itself, score 100 — and the result does not depend on the fuzzy
scorer at all (the scorer is universally quantified and absent from the
right-hand side). -/
theorem hermes_resolver_exact (scorer : Scorer)
    (cache : List (String × DirectoryEntry)) (choices : List String)
    (code : String) (e : DirectoryEntry)
    (hcode : code ≠ "") (hstrip : pyStrip code = code)
    (hkey : dictGet cache code = some e) :
    matchDirectory scorer cache choices code =
      (if e.name = "" then none else some e.name, [code], some 100) := by
  unfold matchDirectory
  rw [if_neg hcode]
  simp [hstrip, hkey]

/-- Witness for C5: the exact hit evaluated on a one-entry cache. -/
theorem hermes_resolver_exact_witness :
    matchDirectory demoScorer c5cache ["H1"] "H1" =
      (some "Maria Schmidt", ["H1"], some 100) := by
  have h := hermes_resolver_exact demoScorer c5cache ["H1"] "H1"
    ⟨"H1", "Maria Schmidt"⟩ (by decide) (by decide) (by decide)
  rw [h]
  decide

/-- C3: when the resolver misses the cache, at least one candidate
clears the cutoff 85 and the best score stays below 90, the result is
the ambiguous composite — the distinct non-empty names of all
candidates scoring in the band 85..95, sorted lexicographically and
joined with " / ", null when no candidate name is non-empty — together
with all candidate codes and the best score. -/
theorem hermes_resolver_ambiguous (scorer : Scorer)
    (cache : List (String × DirectoryEntry)) (choices : List String)
    (code bestKey : String) (bestScore : Nat) (rest : List (String × Nat))
    (hcode : code ≠ "")
    (hmiss : dictGet cache (pyStrip code) = none)
    (hchoices : choices.isEmpty = false)
    (hext : extractList scorer (pyStrip code) choices 85 6 =
      (bestKey, bestScore) :: rest)
    (hlow : bestScore < 90) :
    matchDirectory scorer cache choices code =
      (ambiguousComposite cache ((bestKey, bestScore) :: rest),
        ((bestKey, bestScore) :: rest).map (fun p => p.1), some bestScore) ∧
    85 ≤ bestScore ∧ bestScore < 90 := by
  have hcut : 85 ≤ bestScore :=
    extractList_mem_cutoff (by rw [hext]; exact List.mem_cons_self _ _)
  refine ⟨?_, hcut, hlow⟩
  unfold matchDirectory
  rw [if_neg hcode]
  simp only [hmiss, hchoices, hext, Bool.false_eq_true, if_false]
  rw [if_neg (by omega : ¬ 90 ≤ bestScore)]
  unfold ambiguousComposite
  rw [bandNames_filterMap_eq]

/-- Witness for C3: the ambiguous band evaluated with a concrete
scorer putting both candidates in the band 85..89. -/
theorem hermes_resolver_ambiguous_witness :
    matchDirectory scorer87 c3cache ["H1", "H2"] "HX" =
      (ambiguousComposite c3cache [("H1", 87), ("H2", 86)], ["H1", "H2"], some 87) ∧
    ambiguousComposite c3cache [("H1", 87), ("H2", 86)] = some "Anna / Zed" := by
  refine ⟨(hermes_resolver_ambiguous scorer87 c3cache ["H1", "H2"] "HX" "H1" 87
    [("H2", 86)] (by decide) (by decide) (by decide) (by decide) (by decide)).1, by decide⟩

/-- C4: a cycle that selects a file whose href equals the stored href
and whose downloaded content hashes to the stored content hash reports
unchanged (fetch yields no text and leaves the sync state untouched)
and replaces nothing (the whole application state is unchanged),
whatever the change tags are — in particular when the change tag
differs from the stored one, as a server reporting a new tag for
byte-identical content does. -/
theorem hermes_content_hash_fallback (cfg : Config)
    (download : String → Option (String × String)) (files : List RemoteFileInfo)
    (st : AppState) (ts : String) (target : RemoteFileInfo) (text digest : String)
    (hchoose : chooseRemoteFile cfg.staticFile files = some target)
    (hhref : st.syncState.href = some target.href)
    (hdl : download target.url = some (text, digest))
    (hhash : st.syncState.hash = some digest) :
    fetchRemoteCsv cfg download files st.syncState = (st.syncState, none) ∧
    performSync cfg download files ts st = st := by
  have hne : files.isEmpty = false := by
    cases files with
    | nil => simp [chooseRemoteFile] at hchoose
    | cons a l => rfl
  have hfetch : fetchRemoteCsv cfg download files st.syncState = (st.syncState, none) := by
    unfold fetchRemoteCsv
    simp only [hne, Bool.false_eq_true, if_false, hchoose]
    by_cases hskip : st.syncState.href = some target.href ∧
        truthyOpt st.syncState.etag = true ∧ truthyOpt target.etag = true ∧
        st.syncState.etag = target.etag
    · rw [if_pos hskip]
    · rw [if_neg hskip]
      simp only [hdl]
      rw [if_pos ⟨hhref, hhash⟩]
  refine ⟨hfetch, ?_⟩
  unfold performSync
  rw [hfetch]

/-- Witness for C4: the second of two cycles over the same file with
identical content digest but a changed change tag, evaluated
concretely. -/
theorem hermes_content_hash_fallback_witness :
    fetchRemoteCsv c1cfg c1dl [c1file] c4app.syncState = (c4app.syncState, none) ∧
    performSync c1cfg c1dl [c1file] "ts" c4app = c4app :=
  hermes_content_hash_fallback c1cfg c1dl [c1file] c4app "ts" c1file
    "Sendungsnummer\n" "d1" (by decide) (by decide) (by decide) (by decide)

/-- C1 counterexample: a concrete cycle whose download succeeds (fetch
returns the snapshot text and already rewrites the sync state) while
parsing yields zero entries, after which the stored sync state differs
from its value before the cycle — falsifying the claim that the sync
state is updated only after a successful parse. -/
theorem hermes_syncstate_parse_failure_cex :
    fetchRemoteCsv c1cfg c1dl [c1file] c1app.syncState =
      (⟨some "/f.csv", some "e1", some "d1", none⟩, some "Sendungsnummer\n") ∧
    parseCsvText "Sendungsnummer\n" = [] ∧
    (performSync c1cfg c1dl [c1file] "ts" c1app).syncState ≠ c1app.syncState := by
  decide

/-- C1 amended: the sync state is rewritten by the fetch step as soon
as a changed snapshot is successfully downloaded, before parsing; in a
cycle whose parse yields zero entries the cycle therefore ends with the
fetch-updated sync state while everything else (directory, cache,
candidate list, ledger) is unchanged — so the same snapshot is reported
unchanged, not re-detected, on the next tick. -/
theorem hermes_syncstate_advances_on_parse_failure (cfg : Config)
    (download : String → Option (String × String)) (files : List RemoteFileInfo)
    (ts : String) (st : AppState) (st' : SyncState) (text : String)
    (hfetch : fetchRemoteCsv cfg download files st.syncState = (st', some text))
    (htext : text ≠ "")
    (hparse : parseCsvText text = []) :
    performSync cfg download files ts st = { st with syncState := st' } := by
  unfold performSync
  rw [hfetch]
  simp only [if_neg htext, hparse, List.isEmpty_nil, if_true]

/-- Witness for C1's amended statement: the concrete parse-failure
cycle evaluated end to end. -/
theorem hermes_syncstate_advances_witness :
    performSync c1cfg c1dl [c1file] "ts" c1app =
      { c1app with syncState := ⟨some "/f.csv", some "e1", some "d1", none⟩ } :=
  hermes_syncstate_advances_on_parse_failure c1cfg c1dl [c1file] "ts" c1app
    ⟨some "/f.csv", some "e1", some "d1", none⟩ "Sendungsnummer\n"
    (by decide) (by decide) (by decide)

/-- C9: a sync cycle never modifies the intake ledger — for every
configuration, listing, download oracle, timestamp and prior state, the
packages table after perform_sync is the packages table before it. -/
theorem hermes_sync_preserves_ledger (cfg : Config)
    (download : String → Option (String × String)) (files : List RemoteFileInfo)
    (ts : String) (st : AppState) :
    (performSync cfg download files ts st).packages = st.packages := by
  unfold performSync
  rcases hfr : fetchRemoteCsv cfg download files st.syncState with ⟨s', c⟩
  cases c with
  | none => rfl
  | some content =>
    by_cases hc : content = ""
    · simp [hc]
    · by_cases he : (parseCsvText content).isEmpty = true
      · simp [hc, he]
      · simp [hc, he, syncDirectory]

/-- C2 counterexample: on the row Sendungsnummer=123, Vorname=Jane,
Nachname=Doe with no other columns, the parser yields ("123", "Doe"),
not ("123", "Doe, Jane") — Nachname is itself in the prioritized list
of direct name columns, so the last-name value alone becomes the name
and the join with the first name never runs. -/
theorem hermes_parser_example_cex :
    parseCsv [c2row] = [("123", "Doe")] ∧
    parseCsv [c2row] ≠ [("123", "Doe, Jane")] := by
  decide

/-- C2 amended: for every row carrying Sendungsnummer=123 and
Nachname=Doe whose higher-priority code and name columns are absent,
the parser yields ("123", "Doe"): the name is taken from the direct
name column list (name, Name, Nachname, Empfänger), and joining
last and first name happens only when none of those yields a value. -/
theorem hermes_parser_nachname_direct (r : Row)
    (h1 : getCol r "sendungsnr" = none)
    (h2 : getCol r "Sendungsnummer" = some "123")
    (h3 : getCol r "name" = none)
    (h4 : getCol r "Name" = none)
    (h5 : getCol r "Nachname" = some "Doe") :
    parseRow r = some ("123", "Doe") := by
  have ha : orGet r ["sendungsnr", "Sendungsnummer", "sendungsnummer", "Sendungsnr"] =
      "123" := by
    simp [orGet, h1, h2]
  have hb : orGet r ["name", "Name", "Nachname", "Empfänger"] = "Doe" := by
    simp [orGet, h3, h4, h5]
  unfold parseRow
  rw [ha, hb]
  rfl

/-- Witness for C2's amended statement: the specification's example
row evaluated. -/
theorem hermes_parser_nachname_direct_witness :
    parseRow c2row = some ("123", "Doe") :=
  hermes_parser_nachname_direct c2row (by decide) (by decide) (by decide)
    (by decide) (by decide)

theorem insertPackage_filter {pkgs : List PackageRow} (ts code zone : String)
    (name : Option String)
    (hnd : (pkgs.map (fun r => r.sendungsnr)).Nodup) :
    (insertPackage ts code zone name pkgs).filter
      (fun r => r.sendungsnr = code) = [⟨code, some zone, ts, name⟩] := by
  unfold insertPackage
  by_cases hany : pkgs.any (fun r => decide (r.sendungsnr = code)) = true
  · rw [if_pos (by simpa using hany)]
    induction pkgs with
    | nil => simp at hany
    | cons p t ih =>
      by_cases hp : p.sendungsnr = code
      · have htnd := hnd.of_cons
        have hcode_not : ∀ q ∈ t, ¬ q.sendungsnr = code := by
          intro q hq hqc
          have : p.sendungsnr ∈ t.map (fun r => r.sendungsnr) := by
            rw [hp, ← hqc]
            exact List.mem_map_of_mem _ hq
          exact (List.nodup_cons.mp hnd).1 this
        have hmapid : t.map (fun r =>
            if r.sendungsnr = code then (⟨code, some zone, ts, name⟩ : PackageRow)
            else r) = t := by
          rw [List.map_congr_left (fun q hq => if_neg (hcode_not q hq))]
          exact List.map_id t
        have hfilt : t.filter (fun r => decide (r.sendungsnr = code)) = [] :=
          List.filter_eq_nil_iff.mpr (by
            intro q hq
            simpa using hcode_not q hq)
        simp [List.map_cons, List.filter_cons, hp, hmapid, hfilt]
      · have htany : t.any (fun r => decide (r.sendungsnr = code)) = true := by
          rcases List.any_eq_true.mp hany with ⟨q, hq, hqc⟩
          rcases List.mem_cons.mp hq with rfl | hq'
          · exact absurd (of_decide_eq_true hqc) hp
          · exact List.any_eq_true.mpr ⟨q, hq', hqc⟩
        have := ih hnd.of_cons htany
        simp [List.map_cons, List.filter_cons, hp, this]
  · rw [if_neg (by simpa using hany)]
    have hfilt : pkgs.filter (fun r => decide (r.sendungsnr = code)) = [] :=
      List.filter_eq_nil_iff.mpr (by
        intro q hq hqc
        exact hany (List.any_eq_true.mpr ⟨q, hq, hqc⟩))
    simp [List.filter_append, hfilt, List.filter_cons]

theorem insertPackage_nodup {pkgs : List PackageRow} (ts code zone : String)
    (name : Option String)
    (hnd : (pkgs.map (fun r => r.sendungsnr)).Nodup) :
    ((insertPackage ts code zone name pkgs).map (fun r => r.sendungsnr)).Nodup := by
  unfold insertPackage
  by_cases hany : pkgs.any (fun r => decide (r.sendungsnr = code)) = true
  · rw [if_pos (by simpa using hany)]
    have hmap : (pkgs.map (fun r =>
        if r.sendungsnr = code then (⟨code, some zone, ts, name⟩ : PackageRow)
        else r)).map (fun r => r.sendungsnr) = pkgs.map (fun r => r.sendungsnr) := by
      rw [List.map_map]
      refine List.map_congr_left ?_
      intro q _
      by_cases hq : q.sendungsnr = code
      · simp [Function.comp, hq]
      · simp [Function.comp, hq]
    rw [hmap]
    exact hnd
  · rw [if_neg (by simpa using hany)]
    have hnot : code ∉ pkgs.map (fun r => r.sendungsnr) := by
      intro hmem
      rcases List.mem_map.mp hmem with ⟨q, hq, hqc⟩
      exact hany (List.any_eq_true.mpr ⟨q, hq, by simpa using hqc⟩)
    simp [List.nodup_append, hnd, hnot]

/-- C7: upserting (code, zone, name) twice with identical arguments
into a ledger whose codes are unique (the sqlite primary key
invariant) leaves exactly one row for the code, and that row holds the
latest zone, name and timestamp; uniqueness of codes is preserved. -/
theorem hermes_upsert_idempotent (pkgs : List PackageRow)
    (ts1 ts2 code zone : String) (name : Option String)
    (hnd : (pkgs.map (fun r => r.sendungsnr)).Nodup) :
    ((insertPackage ts2 code zone name (insertPackage ts1 code zone name pkgs)).filter
      (fun r => r.sendungsnr = code)) = [⟨code, some zone, ts2, name⟩] ∧
    (((insertPackage ts2 code zone name (insertPackage ts1 code zone name pkgs)).map
      (fun r => r.sendungsnr)).Nodup) := by
  have hnd1 := insertPackage_nodup ts1 code zone name hnd
  exact ⟨insertPackage_filter ts2 code zone name hnd1,
    insertPackage_nodup ts2 code zone name hnd1⟩

/-- Witness for C7: the double upsert evaluated on a one-row ledger. -/
theorem hermes_upsert_idempotent_witness :
    ((insertPackage "t2" "A1" "Z2" (some "Maria")
        (insertPackage "t1" "A1" "Z2" (some "Maria") c7pkgs)).filter
      (fun r => r.sendungsnr = "A1")) = [⟨"A1", some "Z2", "t2", some "Maria"⟩] :=
  (hermes_upsert_idempotent c7pkgs "t1" "t2" "A1" "Z2" (some "Maria") (by decide)).1

theorem mem_dictInsert {α : Type} {d : List (String × α)} {k : String} {v : α}
    {q : String × α} (h : q ∈ dictInsert d k v) : q = (k, v) ∨ q ∈ d := by
  unfold dictInsert at h
  by_cases hc : d.any (fun p => decide (p.1 = k)) = true
  · rw [if_pos (by simpa using hc)] at h
    rcases List.mem_map.mp h with ⟨p, hp, he⟩
    by_cases hpk : p.1 = k
    · rw [if_pos hpk] at he
      exact Or.inl he.symm
    · rw [if_neg hpk] at he
      exact Or.inr (he ▸ hp)
  · rw [if_neg (by simpa using hc)] at h
    rcases List.mem_append.mp h with h' | h'
    · exact Or.inr h'
    · exact Or.inl (List.mem_singleton.mp h')

theorem buildCache_mem : ∀ (rows : List DirRow)
    (acc : List (String × DirectoryEntry)) (q : String × DirectoryEntry),
    q ∈ rows.foldl (fun acc row =>
      if row.sendungsnr = "" then acc
      else dictInsert acc row.sendungsnr
        ⟨row.sendungsnr, pyStrip (row.name.getD "")⟩) acc →
    q ∈ acc ∨ (q.1 ≠ "" ∧ q.2.sendungsnr = q.1 ∧
      ∃ r ∈ rows, r.sendungsnr = q.1 ∧ q.2.name = pyStrip (r.name.getD "")) := by
  intro rows
  induction rows with
  | nil => exact fun acc q h => Or.inl h
  | cons row rows' ih =>
    intro acc q h
    have h' := ih _ q h
    rcases h' with h'' | ⟨hne, hsn, r, hr, hrc, hrn⟩
    · simp only [] at h''
      by_cases hrow : row.sendungsnr = ""
      · rw [if_pos hrow] at h''
        exact Or.inl h''
      · rw [if_neg hrow] at h''
        rcases mem_dictInsert h'' with rfl | hmem
        · exact Or.inr ⟨hrow, rfl, row, List.mem_cons_self _ _, rfl, rfl⟩
        · exact Or.inl hmem
    · exact Or.inr ⟨hne, hsn, r, List.mem_cons_of_mem _ hr, hrc, hrn⟩

/-- C10: after a cache rebuild — run at startup and after every
directory replacement — the fuzzy candidate list is exactly the key
set of the code-to-entry mapping, every key is non-empty, every entry
carries its own key as code, and every cached name is the stored value
with surrounding whitespace stripped; and the state sync_directory
leaves behind is exactly the rebuild of its new directory table. -/
theorem hermes_cache_wellformed (rows : List DirRow) :
    (rebuildDirectoryCache rows).2 = (rebuildDirectoryCache rows).1.map (fun p => p.1) ∧
    (∀ k ∈ (rebuildDirectoryCache rows).2, k ≠ "") ∧
    (∀ p ∈ (rebuildDirectoryCache rows).1, p.1 ≠ "" ∧ p.2.sendungsnr = p.1 ∧
      ∃ r ∈ rows, r.sendungsnr = p.1 ∧ p.2.name = pyStrip (r.name.getD "")) ∧
    (∀ (entries : List (String × String)) (ts : String) (st : AppState),
      (syncDirectory entries ts st).cache =
        (rebuildDirectoryCache (syncDirectory entries ts st).directory).1 ∧
      (syncDirectory entries ts st).choices =
        (rebuildDirectoryCache (syncDirectory entries ts st).directory).2) := by
  have hmem : ∀ p ∈ (rebuildDirectoryCache rows).1, p.1 ≠ "" ∧ p.2.sendungsnr = p.1 ∧
      ∃ r ∈ rows, r.sendungsnr = p.1 ∧ p.2.name = pyStrip (r.name.getD "") := by
    intro p hp
    have h := buildCache_mem rows [] p hp
    rcases h with h' | h'
    · simp at h'
    · exact h'
  refine ⟨rfl, ?_, hmem, fun entries ts st => ⟨rfl, rfl⟩⟩
  intro k hk
  rcases List.mem_map.mp hk with ⟨p, hp, rfl⟩
  exact (hmem p hp).1

/-- Witness for C10: the invariant applied to a concrete directory
table holding one unstripped name and one row with an empty code. -/
theorem hermes_cache_wellformed_witness :
    ("X" : String) ≠ "" ∧
    (∃ r ∈ c10rows, r.sendungsnr = "X" ∧
      (⟨"X", "y"⟩ : DirectoryEntry).name = pyStrip (r.name.getD "")) := by
  have h := (hermes_cache_wellformed c10rows).2.2.1 ("X", ⟨"X", "y"⟩) (by decide)
  exact ⟨h.1, h.2.2⟩

/-- C8: run_search unpacks each rapidfuzz triple as
`key, score, _value`, but for a mapping rapidfuzz returns
`(choiceValue, score, key)`, so the loop looks the composite string —
not the code — up in the code-keyed `choices` dict.  On a ledger row
whose resolved name or zone is non-empty the composite differs from
the code, the lookup misses and the matched row is silently dropped:
with a scorer rating the composite "A1 Maria Z1" at 90 (above the
cutoff 70) for the term "A1", the code returns no rows at all, while
the search the specification describes returns the row with its
score.  The empty-term pass-through path is unaffected. -/
theorem hermes_search_lookup_mismatch :
    70 ≤ demoScorer "A1" (compositeOf c8row) ∧
    runSearch demoScorer "A1" [c8row] = [] ∧
    runSearchSpec demoScorer "A1" [c8row] = [(c8row, 90)] ∧
    runSearch demoScorer "" [c8row] = [(c8row, none)] := by
  decide
